import Mathlib

/-!
Shallow embedding of the OMR evaluation core (`omr_processor.py`) and proofs
of the specification claims about it.

The embedding mirrors the source:
* `detect_bubbles` — the grid mapper / ink measurement loop (5 columns × 20
  rows, 4 options per question, integer-truncated slicing, absolute pixel
  coordinates as in the numpy slices of the source).
* `pyMax` / `extractAnswer` / `extract_answers` — the mark extractor.  Python's
  `max(items, key=...)` keeps the first element seen and replaces it only on a
  strictly greater key, which is exactly the fold below.
* `stepEval` / `evaluate_answers` — the scorer, including the undocumented
  `is_correct` field and the in-loop `score += 1` accumulation.

Intensities are rationals: the source computes `np.sum(region) / 255` with
true (float) division; on the binary masks in scope every sum is a multiple
of 255, so rational arithmetic models it exactly.
-/

namespace OMR

/-- Option labels, in the source's canonical order `['a', 'b', 'c', 'd']`. -/
inductive Label where
  | a
  | b
  | c
  | d
deriving DecidableEq, Repr

/-- The canonical label order used by `detect_bubbles` when it builds each
question's intensity dictionary. -/
def labelOrder : List Label := [Label.a, Label.b, Label.c, Label.d]

/-- Canonical index of a label (`a` first). -/
def canonIdx : Label → Nat
  | Label.a => 0
  | Label.b => 1
  | Label.c => 2
  | Label.d => 3

/-- A binary mask: 2-D grid of 8-bit samples, addressed `pixel y x` as in
`thresh[y, x]`. -/
structure Mask where
  height : Nat
  width : Nat
  pixel : Nat → Nat → Nat

/-- `cols = 5` in `detect_bubbles`. -/
def gridCols : Nat := 5

/-- `rows = 20` in `detect_bubbles`. -/
def gridRows : Nat := 20

/-- Four options (a, b, c, d) per question. -/
def optionsPerQuestion : Nat := 4

/-- `col_width = width // cols`. -/
def colWidth (width : Nat) : Nat := width / gridCols

/-- `row_height = height // rows`. -/
def rowHeight (height : Nat) : Nat := height / gridRows

/-- `option_height = row_height // 4`. -/
def optionHeight (height : Nat) : Nat := rowHeight height / optionsPerQuestion

/-- `x_start = col * col_width`. -/
def xStart (width col : Nat) : Nat := col * colWidth width

/-- `x_end = x_start + col_width`. -/
def xEnd (width col : Nat) : Nat := xStart width col + colWidth width

/-- `y_start = row * row_height`. -/
def yStart (height row : Nat) : Nat := row * rowHeight height

/-- `y_end = y_start + row_height`. -/
def yEnd (height row : Nat) : Nat := yStart height row + rowHeight height

/-- Absolute top edge of option band `opt` of the question cell at `row`:
`y_start + opt_idx * option_height` (the source slices `bubble_region`
relatively; `yStart` restores the absolute coordinate). -/
def optYStart (height row opt : Nat) : Nat :=
  yStart height row + opt * optionHeight height

/-- Absolute bottom edge of option band `opt`: `optYStart + option_height`. -/
def optYEnd (height row opt : Nat) : Nat :=
  optYStart height row opt + optionHeight height

/-- `np.sum` over the rectangle of rows `[y0, y1)` and columns `[x0, x1)`. -/
def regionSum (m : Mask) (y0 y1 x0 x1 : Nat) : Nat :=
  ∑ y ∈ Finset.Ico y0 y1, ∑ x ∈ Finset.Ico x0 x1, m.pixel y x

/-- `intensity = np.sum(option_region) / 255` for option `opt` of the question
cell at (`col`, `row`). -/
def optionIntensity (m : Mask) (col row opt : Nat) : ℚ :=
  (regionSum m (optYStart m.height row opt) (optYEnd m.height row opt)
      (xStart m.width col) (xEnd m.width col) : ℚ) / 255

/-- The `options_intensity` dictionary built for one question, in insertion
order a, b, c, d (`for opt_idx, option in enumerate(['a','b','c','d'])`). -/
def questionOptions (m : Mask) (col row : Nat) : List (Label × ℚ) :=
  [(Label.a, optionIntensity m col row 0),
   (Label.b, optionIntensity m col row 1),
   (Label.c, optionIntensity m col row 2),
   (Label.d, optionIntensity m col row 3)]

/-- `detect_bubbles`: the nested `for col in range(cols): for row in
range(rows)` loop inserting `q_num = col * rows + row + 1` into the `bubbles`
dictionary, modelled as an association list in insertion order. -/
def detect_bubbles (m : Mask) : List (Nat × List (Label × ℚ)) :=
  (List.range gridCols).foldl (fun acc col =>
    (List.range gridRows).foldl (fun acc2 row =>
      acc2 ++ [(col * gridRows + row + 1, questionOptions m col row)]) acc) []

/-- Python's `max(options.items(), key=lambda x: x[1])`: fold keeping the
first element, replacing only on a strictly greater value; `none` on an empty
dictionary (where the source's `if options:` guard takes the `else` branch). -/
def pyMax : List (Label × ℚ) → Option (Label × ℚ)
  | [] => none
  | x :: xs => some (xs.foldl (fun acc y => if acc.2 < y.2 then y else acc) x)

/-- The `> 50` threshold for a marked bubble in `extract_answers`. -/
def markedThreshold : ℚ := 50

/-- Per-question decision in `extract_answers`: the max-intensity option if
its intensity exceeds the threshold, else `none`.  (`options[marked_option]`
is the max entry's own value, dictionary keys being unique.) -/
def extractAnswer (options : List (Label × ℚ)) : Option Label :=
  match pyMax options with
  | none => none
  | some e => if markedThreshold < e.2 then some e.1 else none

/-- `extract_answers`: maps the per-question decision over the bubbles
dictionary, preserving keys and order. -/
def extract_answers (bubbles : List (Nat × List (Label × ℚ))) :
    List (Nat × Option Label) :=
  bubbles.map fun p => (p.1, extractAnswer p.2)

/-- Verdict status strings of `evaluate_answers`. -/
inductive Status where
  | Correct
  | Incorrect
  | NotAttempted
deriving DecidableEq, Repr

/-- One per-question result record of `evaluate_answers`, including the
undocumented `is_correct` field.  `marked = none` models the `"None"` string
stored for an unattempted question; `correct` is `self.answer_key.get(q_num)`,
which is `none` when the key has no entry. -/
structure Verdict where
  status : Status
  marked : Option Label
  correct : Option Label
  is_correct : Bool
deriving DecidableEq, Repr

/-- One iteration of the `evaluate_answers` loop: appends the verdict for one
`(q_num, student_answer)` pair and bumps the score in the `Correct` branch. -/
def stepEval (key : List (Nat × Label)) (acc : Nat × List (Nat × Verdict))
    (p : Nat × Option Label) : Nat × List (Nat × Verdict) :=
  match p.2 with
  | none =>
      (acc.1, acc.2 ++ [(p.1, ⟨Status.NotAttempted, none, key.lookup p.1, false⟩)])
  | some s =>
      if some s = key.lookup p.1 then
        (acc.1 + 1, acc.2 ++ [(p.1, ⟨Status.Correct, some s, key.lookup p.1, true⟩)])
      else
        (acc.1, acc.2 ++ [(p.1, ⟨Status.Incorrect, some s, key.lookup p.1, false⟩)])

/-- `evaluate_answers`: folds the loop over the extracted answers, starting
from `score = 0` and an empty results dictionary. -/
def evaluate_answers (key : List (Nat × Label)) (answers : List (Nat × Option Label)) :
    Nat × List (Nat × Verdict) :=
  answers.foldl (stepEval key) (0, [])

/-- The verdict `evaluate_answers` records for one `(q_num, student_answer)`
pair (the body of `stepEval` without the accumulator plumbing). -/
def evalVerdict (key : List (Nat × Label)) (p : Nat × Option Label) : Verdict :=
  match p.2 with
  | none => ⟨Status.NotAttempted, none, key.lookup p.1, false⟩
  | some s =>
      if some s = key.lookup p.1 then ⟨Status.Correct, some s, key.lookup p.1, true⟩
      else ⟨Status.Incorrect, some s, key.lookup p.1, false⟩

/-- The score increment `evaluate_answers` adds for one pair: 1 exactly in the
`Correct` branch. -/
def evalInc (key : List (Nat × Label)) (p : Nat × Option Label) : Nat :=
  match p.2 with
  | none => 0
  | some s => if some s = key.lookup p.1 then 1 else 0

/-- An intensity map over the four labels in canonical insertion order, the
shape every `options_intensity` dictionary built by `detect_bubbles` has. -/
def intensityMap (sa sb sc sd : ℚ) : List (Label × ℚ) :=
  [(Label.a, sa), (Label.b, sb), (Label.c, sc), (Label.d, sd)]

/-- The score a canonical intensity map assigns to each label. -/
def scoreAt (sa sb sc sd : ℚ) : Label → ℚ
  | Label.a => sa
  | Label.b => sb
  | Label.c => sc
  | Label.d => sd

/-- Claim-side behavioural property following the spec's error-handling words:
when the answer key is missing an entry for a question present in the answers,
the pipeline fails closed before scoring — no verdict record is produced.
The source has no such validation pass; this predicate is stated from the
spec's words so that it can be refuted against the code. -/
def specFailsClosedOnMissingKey : Prop :=
  ∀ (key : List (Nat × Label)) (answers : List (Nat × Option Label)),
    (∃ p ∈ answers, key.lookup p.1 = none) →
      (evaluate_answers key answers).2 = []

/-- Modelled from the spec's design-note words, for refutation: the last
column slice "absorbs the truncated remainder", i.e. its right edge reaches
the mask width. -/
def lastColumnAbsorbsRemainder (width : Nat) : Prop :=
  xEnd width (gridCols - 1) = width

/-- A concrete all-foreground binary mask (height 80, width 5), used as a
witness input. -/
def binaryMaskW : Mask := ⟨80, 5, fun _ _ => 255⟩

section HelperLemmas

/-- Every per-question dictionary produced by `detect_bubbles` is a canonical
intensity map. -/
lemma questionOptions_eq_intensityMap (m : Mask) (col row : Nat) :
    questionOptions m col row =
      intensityMap (optionIntensity m col row 0) (optionIntensity m col row 1)
        (optionIntensity m col row 2) (optionIntensity m col row 3) := rfl

lemma foldl_append_flatten {α β : Type} (g : α → List β) :
    ∀ (l : List α) (acc : List β),
      l.foldl (fun a x => a ++ g x) acc = acc ++ (l.map g).flatten
  | [], acc => by simp
  | x :: xs, acc => by
      simp [List.foldl, foldl_append_flatten g xs]

lemma flatten_map_singleton {α β : Type} (f : α → β) :
    ∀ l : List α, (l.map fun x => [f x]).flatten = l.map f
  | [] => by simp
  | x :: xs => by simp [flatten_map_singleton f xs]

lemma detect_bubbles_flatten (m : Mask) :
    detect_bubbles m = ((List.range gridCols).map fun col =>
      (List.range gridRows).map fun row =>
        (col * gridRows + row + 1, questionOptions m col row)).flatten := by
  unfold detect_bubbles
  have inner : (fun (acc : List (Nat × List (Label × ℚ))) (col : Nat) =>
      (List.range gridRows).foldl (fun acc2 row =>
        acc2 ++ [(col * gridRows + row + 1, questionOptions m col row)]) acc) =
      (fun acc col =>
        acc ++ (List.range gridRows).map (fun row =>
          (col * gridRows + row + 1, questionOptions m col row))) := by
    funext acc col
    rw [foldl_append_flatten (fun row => [(col * gridRows + row + 1, questionOptions m col row)])
      (List.range gridRows) acc]
    rw [flatten_map_singleton]
  rw [inner]
  rw [foldl_append_flatten _ (List.range gridCols) []]
  simp

lemma detect_bubbles_keys (m : Mask) :
    (detect_bubbles m).map Prod.fst = List.range' 1 100 := by
  rw [detect_bubbles_flatten]
  rw [List.map_flatten]
  simp only [List.map_map, Function.comp_def]
  decide

/-- `pyMax` on a canonical intensity map returns an entry of the map whose
score is the overall maximum, and every canonically earlier label scores
strictly below that maximum (Python's `max` keeps the first maximal item). -/
lemma pyMax_intensityMap (sa sb sc sd : ℚ) :
    ∃ l, pyMax (intensityMap sa sb sc sd) = some (l, scoreAt sa sb sc sd l) ∧
      scoreAt sa sb sc sd l = max (max (max sa sb) sc) sd ∧
      ∀ l2, canonIdx l2 < canonIdx l →
        scoreAt sa sb sc sd l2 < max (max (max sa sb) sc) sd := by
  simp only [intensityMap, pyMax, List.foldl]
  split_ifs with h1 h2 h3 h3 h2 h3 h3
  · refine ⟨Label.d, rfl, ?_, ?_⟩
    · rw [max_eq_right h1.le, max_eq_right h2.le, max_eq_right h3.le]
      rfl
    · intro l2 hl2
      rw [max_eq_right h1.le, max_eq_right h2.le, max_eq_right h3.le]
      cases l2 <;> simp [canonIdx, scoreAt] at hl2 ⊢ <;> linarith
  · refine ⟨Label.c, rfl, ?_, ?_⟩
    · rw [max_eq_right h1.le, max_eq_right h2.le, max_eq_left (not_lt.mp h3)]
      rfl
    · intro l2 hl2
      rw [max_eq_right h1.le, max_eq_right h2.le, max_eq_left (not_lt.mp h3)]
      cases l2 <;> simp [canonIdx, scoreAt] at hl2 ⊢ <;> linarith
  · refine ⟨Label.d, rfl, ?_, ?_⟩
    · rw [max_eq_right h1.le, max_eq_left (not_lt.mp h2), max_eq_right h3.le]
      rfl
    · intro l2 hl2
      rw [max_eq_right h1.le, max_eq_left (not_lt.mp h2), max_eq_right h3.le]
      cases l2 <;> simp [canonIdx, scoreAt] at hl2 ⊢ <;> linarith
  · refine ⟨Label.b, rfl, ?_, ?_⟩
    · rw [max_eq_right h1.le, max_eq_left (not_lt.mp h2), max_eq_left (not_lt.mp h3)]
      rfl
    · intro l2 hl2
      rw [max_eq_right h1.le, max_eq_left (not_lt.mp h2), max_eq_left (not_lt.mp h3)]
      cases l2 <;> simp [canonIdx, scoreAt] at hl2 ⊢ <;> linarith
  · refine ⟨Label.d, rfl, ?_, ?_⟩
    · rw [max_eq_left (not_lt.mp h1), max_eq_right h2.le, max_eq_right h3.le]
      rfl
    · intro l2 hl2
      rw [max_eq_left (not_lt.mp h1), max_eq_right h2.le, max_eq_right h3.le]
      cases l2 <;> simp [canonIdx, scoreAt] at hl2 ⊢ <;> linarith
  · refine ⟨Label.c, rfl, ?_, ?_⟩
    · rw [max_eq_left (not_lt.mp h1), max_eq_right h2.le, max_eq_left (not_lt.mp h3)]
      rfl
    · intro l2 hl2
      rw [max_eq_left (not_lt.mp h1), max_eq_right h2.le, max_eq_left (not_lt.mp h3)]
      cases l2 <;> simp [canonIdx, scoreAt] at hl2 ⊢ <;> linarith
  · refine ⟨Label.d, rfl, ?_, ?_⟩
    · rw [max_eq_left (not_lt.mp h1), max_eq_left (not_lt.mp h2), max_eq_right h3.le]
      rfl
    · intro l2 hl2
      rw [max_eq_left (not_lt.mp h1), max_eq_left (not_lt.mp h2), max_eq_right h3.le]
      cases l2 <;> simp [canonIdx, scoreAt] at hl2 ⊢ <;> linarith
  · refine ⟨Label.a, rfl, ?_, ?_⟩
    · rw [max_eq_left (not_lt.mp h1), max_eq_left (not_lt.mp h2), max_eq_left (not_lt.mp h3)]
      rfl
    · intro l2 hl2
      rw [max_eq_left (not_lt.mp h1), max_eq_left (not_lt.mp h2), max_eq_left (not_lt.mp h3)]
      cases l2 <;> simp [canonIdx, scoreAt] at hl2 ⊢

lemma stepEval_eq (key : List (Nat × Label)) (acc : Nat × List (Nat × Verdict))
    (p : Nat × Option Label) :
    stepEval key acc p = (acc.1 + evalInc key p, acc.2 ++ [(p.1, evalVerdict key p)]) := by
  rcases p with ⟨q, s⟩
  cases s with
  | none => simp [stepEval, evalVerdict, evalInc]
  | some l =>
      simp only [stepEval, evalVerdict, evalInc]
      split <;> simp

lemma evaluate_answers_foldl (key : List (Nat × Label)) :
    ∀ (answers : List (Nat × Option Label)) (acc : Nat × List (Nat × Verdict)),
      answers.foldl (stepEval key) acc =
        (acc.1 + (answers.map (evalInc key)).sum,
         acc.2 ++ answers.map fun p => (p.1, evalVerdict key p))
  | [], acc => by simp
  | p :: ps, acc => by
      rw [List.foldl_cons, stepEval_eq, evaluate_answers_foldl key ps]
      simp [Nat.add_assoc]

/-- `evaluate_answers` decomposed: the score is the sum of per-question
increments and the verdict list is a pointwise map over the answers. -/
lemma evaluate_answers_eq (key : List (Nat × Label)) (answers : List (Nat × Option Label)) :
    evaluate_answers key answers =
      ((answers.map (evalInc key)).sum,
       answers.map fun p => (p.1, evalVerdict key p)) := by
  rw [evaluate_answers, evaluate_answers_foldl key answers (0, [])]
  simp

lemma evalInc_eq_if (key : List (Nat × Label)) (p : Nat × Option Label) :
    evalInc key p = if (evalVerdict key p).status = Status.Correct then 1 else 0 := by
  rcases p with ⟨q, s⟩
  cases s with
  | none => simp [evalInc, evalVerdict]
  | some l =>
      simp only [evalInc, evalVerdict]
      split <;> simp

lemma evalVerdict_is_correct (key : List (Nat × Label)) (p : Nat × Option Label) :
    (evalVerdict key p).is_correct = true ↔ (evalVerdict key p).status = Status.Correct := by
  rcases p with ⟨q, s⟩
  cases s with
  | none => simp [evalVerdict]
  | some l =>
      simp only [evalVerdict]
      split <;> simp

lemma sum_evalInc_eq_countCorrect (key : List (Nat × Label)) :
    ∀ answers : List (Nat × Option Label),
      (answers.map (evalInc key)).sum =
        ((answers.map fun p => (p.1, evalVerdict key p)).filter
          (fun v => v.2.status == Status.Correct)).length
  | [] => by simp
  | p :: ps => by
      rw [List.map_cons, List.map_cons, List.sum_cons, List.filter_cons,
        sum_evalInc_eq_countCorrect key ps, evalInc_eq_if]
      by_cases h : (evalVerdict key p).status = Status.Correct
      · simp [h, Nat.add_comm]
      · simp [h]

lemma sum_evalInc_le_length (key : List (Nat × Label)) :
    ∀ answers : List (Nat × Option Label),
      (answers.map (evalInc key)).sum ≤ answers.length
  | [] => by simp
  | p :: ps => by
      have h1 : evalInc key p ≤ 1 := by
        rcases p with ⟨q, s⟩
        cases s with
        | none => simp [evalInc]
        | some l =>
            simp only [evalInc]
            split <;> simp
      have h2 := sum_evalInc_le_length key ps
      simp only [List.map_cons, List.sum_cons, List.length_cons]
      omega

/-- In an association list with pairwise distinct keys (a dictionary), lookup
finds exactly the stored value. -/
lemma lookup_eq_some_of_mem_nodup :
    ∀ {key : List (Nat × Label)} {q : Nat} {l : Label},
      (q, l) ∈ key → (key.map Prod.fst).Nodup → key.lookup q = some l
  | [], q, l, hmem, _ => by cases hmem
  | (k, w) :: t, q, l, hmem, hnd => by
      rw [List.map_cons] at hnd
      have hnd1 := (List.nodup_cons.mp hnd).1
      have hnd2 := (List.nodup_cons.mp hnd).2
      rcases List.mem_cons.mp hmem with h | h
      · rcases Prod.mk.injEq .. ▸ h with ⟨h1, h2⟩
        subst h1
        subst h2
        simp [List.lookup]
      · have hq : (q == k) = false := by
          rw [beq_eq_false_iff_ne]
          intro heq
          apply hnd1
          rw [← heq]
          exact List.mem_map.mpr ⟨(q, l), h, rfl⟩
        rw [List.lookup, hq]
        exact lookup_eq_some_of_mem_nodup h hnd2

end HelperLemmas

/-- C6: for every binary mask, `detect_bubbles` (5 columns × 20 rows)
enumerates exactly the question numbers 1..100 in column-major order — the
key sequence of the produced map is literally `[1, ..., 100]`, with question
`col * 20 + row + 1` coming from 0-based column `col` and row `row` as in the
flattened loop form — so the bubble map has exactly the keys 1..100. -/
theorem C6_grid_enumeration (m : Mask) :
    detect_bubbles m = ((List.range gridCols).map fun col =>
      (List.range gridRows).map fun row =>
        (col * gridRows + row + 1, questionOptions m col row)).flatten ∧
    (detect_bubbles m).map Prod.fst = List.range' 1 100 ∧
    (∀ q : Nat, q ∈ (detect_bubbles m).map Prod.fst ↔ 1 ≤ q ∧ q ≤ 100) := by
  refine ⟨detect_bubbles_flatten m, detect_bubbles_keys m, ?_⟩
  intro q
  rw [detect_bubbles_keys m, List.mem_range'_1]
  omega

/-- C3: evaluating a complete answer key (entries covering question numbers
1..N) against itself as the answers yields score N and a Correct verdict for
every question. -/
theorem C3_key_self_evaluation (key : List (Nat × Label))
    (hcover : (key.map Prod.fst).Perm (List.range' 1 key.length)) :
    (evaluate_answers key (key.map fun e => (e.1, some e.2))).1 = key.length ∧
    ∀ v ∈ (evaluate_answers key (key.map fun e => (e.1, some e.2))).2,
      v.2.status = Status.Correct := by
  have hnd : (key.map Prod.fst).Nodup :=
    hcover.symm.nodup (List.nodup_range' 1 key.length 1 (by norm_num))
  have hlook : ∀ e ∈ key, key.lookup e.1 = some e.2 := by
    intro e he
    rcases e with ⟨q, l⟩
    exact lookup_eq_some_of_mem_nodup he hnd
  rw [evaluate_answers_eq]
  constructor
  · simp only [List.map_map, Function.comp_def]
    have hone : ∀ e ∈ key, evalInc key (e.1, some e.2) = 1 := by
      intro e he
      simp [evalInc, hlook e he]
    rw [List.map_congr_left hone]
    simp
  · intro v hv
    simp only [List.map_map, Function.comp_def, List.mem_map] at hv
    rcases hv with ⟨e, he, rfl⟩
    simp [evalVerdict, hlook e he]

/-- C3 witness: a concrete 3-question key evaluated against itself scores 3
with all verdicts Correct. -/
theorem C3_key_self_evaluation_witness :
    (evaluate_answers [(1, Label.b), (2, Label.a), (3, Label.d)]
      ([(1, Label.b), (2, Label.a), (3, Label.d)].map fun e => (e.1, some e.2))).1 = 3 ∧
    ∀ v ∈ (evaluate_answers [(1, Label.b), (2, Label.a), (3, Label.d)]
      ([(1, Label.b), (2, Label.a), (3, Label.d)].map fun e => (e.1, some e.2))).2,
      v.2.status = Status.Correct :=
  C3_key_self_evaluation [(1, Label.b), (2, Label.a), (3, Label.d)] (by decide)

/-- C4: an explicit NoAnswer at question q is judged NotAttempted whatever the
key holds there, the corresponding verdict is recorded, and the score counts
only Correct verdicts — so NotAttempted never contributes to it. -/
theorem C4_no_answer_not_attempted (key : List (Nat × Label))
    (answers : List (Nat × Option Label)) (q : Nat)
    (h : (q, (none : Option Label)) ∈ answers) :
    (evalVerdict key (q, none)).status = Status.NotAttempted ∧
    (q, evalVerdict key (q, none)) ∈ (evaluate_answers key answers).2 ∧
    (evaluate_answers key answers).1 =
      ((evaluate_answers key answers).2.filter
        (fun v => v.2.status == Status.Correct)).length := by
  refine ⟨rfl, ?_, ?_⟩
  · rw [evaluate_answers_eq]
    exact List.mem_map.mpr ⟨(q, none), h, rfl⟩
  · rw [evaluate_answers_eq]
    exact sum_evalInc_eq_countCorrect key answers

/-- C4 witness: with key `1 ↦ b` and the single answer `1 ↦ NoAnswer`, the
verdict is NotAttempted and the score counts no verdict. -/
theorem C4_no_answer_not_attempted_witness :
    (evalVerdict [(1, Label.b)] (1, none)).status = Status.NotAttempted ∧
    (1, evalVerdict [(1, Label.b)] (1, none)) ∈
      (evaluate_answers [(1, Label.b)] [(1, none)]).2 ∧
    (evaluate_answers [(1, Label.b)] [(1, none)]).1 =
      ((evaluate_answers [(1, Label.b)] [(1, none)]).2.filter
        (fun v => v.2.status == Status.Correct)).length :=
  C4_no_answer_not_attempted [(1, Label.b)] [(1, none)] 1 (by simp)

/-- C5: the score returned by `evaluate_answers` equals the count of Correct
verdicts (no partial credit, no negative marking), and — being a natural
number — lies between 0 and N, the number of questions in the answer map. -/
theorem C5_score_counts_correct (key : List (Nat × Label))
    (answers : List (Nat × Option Label)) :
    (evaluate_answers key answers).1 =
      ((evaluate_answers key answers).2.filter
        (fun v => v.2.status == Status.Correct)).length ∧
    (evaluate_answers key answers).1 ≤ answers.length := by
  rw [evaluate_answers_eq]
  exact ⟨sum_evalInc_eq_countCorrect key answers, sum_evalInc_le_length key answers⟩

/-- C10: the undocumented `is_correct` field agrees with `status` on every
verdict (`is_correct` iff status is Correct, hence false for Incorrect and
NotAttempted), and the score equals the number of verdicts with
`is_correct = true`. -/
theorem C10_is_correct_consistent (key : List (Nat × Label))
    (answers : List (Nat × Option Label)) :
    (∀ v ∈ (evaluate_answers key answers).2,
        v.2.is_correct = true ↔ v.2.status = Status.Correct) ∧
    (evaluate_answers key answers).1 =
      ((evaluate_answers key answers).2.filter (fun v => v.2.is_correct)).length := by
  rw [evaluate_answers_eq]
  dsimp only
  constructor
  · intro v hv
    rcases List.mem_map.mp hv with ⟨p, hp, rfl⟩
    exact evalVerdict_is_correct key p
  · rw [sum_evalInc_eq_countCorrect key answers]
    congr 1
    apply List.filter_congr
    intro v hv
    rcases List.mem_map.mp hv with ⟨p, hp, rfl⟩
    have hiff := evalVerdict_is_correct key p
    by_cases hc : (evalVerdict key p).status = Status.Correct
    · simp [hc, hiff.mpr hc]
    · have hfalse : (evalVerdict key p).is_correct = false := by
        rcases Bool.eq_false_or_eq_true (evalVerdict key p).is_correct with ht | hf
        · exact absurd (hiff.mp ht) hc
        · exact hf
      simp [hc, hfalse]

/-- C8 counterexample: the claimed fail-closed validation does not exist in
the code.  With an empty answer key and the single marked answer `1 ↦ a`,
`evaluate_answers` happily produces a verdict instead of failing. -/
theorem C8_counterexample : ¬ specFailsClosedOnMissingKey := by
  intro h
  have h2 := h [] [(1, some Label.a)] ⟨(1, some Label.a), by simp, rfl⟩
  simp [evaluate_answers, stepEval] at h2

/-- C8 amended: the pipeline performs no key-completeness validation; a
question whose number is absent from the answer key is silently scored — a
marked label gets an Incorrect verdict with correct-label `none`, and the
score still counts only Correct verdicts. -/
theorem C8_missing_key_silently_scored (key : List (Nat × Label))
    (answers : List (Nat × Option Label)) (q : Nat) (l : Label)
    (hmem : (q, some l) ∈ answers) (hmiss : key.lookup q = none) :
    (q, (⟨Status.Incorrect, some l, none, false⟩ : Verdict)) ∈
      (evaluate_answers key answers).2 ∧
    (evaluate_answers key answers).1 =
      ((evaluate_answers key answers).2.filter
        (fun v => v.2.status == Status.Correct)).length := by
  constructor
  · rw [evaluate_answers_eq]
    refine List.mem_map.mpr ⟨(q, some l), hmem, ?_⟩
    simp [evalVerdict, hmiss]
  · rw [evaluate_answers_eq]
    exact sum_evalInc_eq_countCorrect key answers

/-- C8 witness: with an empty key, the marked answer `1 ↦ a` is silently
recorded as Incorrect with no correct label. -/
theorem C8_missing_key_silently_scored_witness :
    (1, (⟨Status.Incorrect, some Label.a, none, false⟩ : Verdict)) ∈
      (evaluate_answers [] [(1, some Label.a)]).2 ∧
    (evaluate_answers [] [(1, some Label.a)]).1 =
      ((evaluate_answers [] [(1, some Label.a)]).2.filter
        (fun v => v.2.status == Status.Correct)).length :=
  C8_missing_key_silently_scored [] [(1, some Label.a)] 1 Label.a (by simp) rfl

/-- C1: strict-greater-than semantics at the marked threshold 50.  If the
maximum ink score of a canonical intensity map is exactly 50 the extractor
reports NoAnswer; if it is 51 the extractor reports a label whose score is
that maximum. -/
theorem C1_threshold_boundary (sa sb sc sd M : ℚ)
    (hM : M = max (max (max sa sb) sc) sd) :
    (M = 50 → extractAnswer (intensityMap sa sb sc sd) = none) ∧
    (M = 51 → ∃ l, extractAnswer (intensityMap sa sb sc sd) = some l ∧
        scoreAt sa sb sc sd l = 51) := by
  obtain ⟨l, hpy, hmax, _⟩ := pyMax_intensityMap sa sb sc sd
  constructor
  · intro h50
    have hval : scoreAt sa sb sc sd l = 50 := by
      rw [hmax, ← hM]
      exact h50
    simp [extractAnswer, hpy, markedThreshold, hval]
  · intro h51
    have hval : scoreAt sa sb sc sd l = 51 := by
      rw [hmax, ← hM]
      exact h51
    refine ⟨l, ?_, hval⟩
    norm_num [extractAnswer, hpy, markedThreshold, hval]

/-- C1 witness: a map whose maximum is exactly 50 yields NoAnswer, and one
whose maximum is 51 yields a label scoring 51. -/
theorem C1_threshold_boundary_witness :
    extractAnswer (intensityMap 50 49 0 0) = none ∧
    (∃ l, extractAnswer (intensityMap 51 49 0 0) = some l ∧
      scoreAt 51 49 0 0 l = 51) :=
  ⟨(C1_threshold_boundary 50 49 0 0 50 (by norm_num [max_def])).1 rfl,
   (C1_threshold_boundary 51 49 0 0 51 (by norm_num [max_def])).2 rfl⟩

/-- C2 counterexample: the claim omits the threshold.  In the intensity map
with all four scores 0 the labels a and b (indeed all four) tie at the
maximum 0, yet `extractAnswer` returns NoAnswer — not the canonically first
tied label a — because the tied maximum does not exceed the threshold 50. -/
theorem C2_counterexample :
    scoreAt 0 0 0 0 Label.a = 0 ∧ scoreAt 0 0 0 0 Label.b = 0 ∧
    scoreAt 0 0 0 0 Label.c = 0 ∧ scoreAt 0 0 0 0 Label.d = 0 ∧
    max (max (max (0 : ℚ) 0) 0) 0 = 0 ∧
    extractAnswer (intensityMap 0 0 0 0) = none ∧
    extractAnswer (intensityMap 0 0 0 0) ≠ some Label.a := by decide

/-- C2 amended: when two or more labels tie at the maximum score AND that
maximum exceeds the marked threshold 50, `extractAnswer` returns the
canonically first tied label (every earlier label misses the maximum); being
a pure function, the result is identical across repeated calls, and a tie is
never an error. -/
theorem C2_tie_break_first_label (sa sb sc sd M : ℚ)
    (hM : M = max (max (max sa sb) sc) sd)
    (_htie : ∃ l1 l2, l1 ≠ l2 ∧ scoreAt sa sb sc sd l1 = M ∧
      scoreAt sa sb sc sd l2 = M)
    (hthr : markedThreshold < M) :
    ∃ l, extractAnswer (intensityMap sa sb sc sd) = some l ∧
      scoreAt sa sb sc sd l = M ∧
      ∀ l2, canonIdx l2 < canonIdx l → scoreAt sa sb sc sd l2 ≠ M := by
  obtain ⟨l, hpy, hmax, hfirst⟩ := pyMax_intensityMap sa sb sc sd
  have hval : scoreAt sa sb sc sd l = M := by rw [hmax, ← hM]
  refine ⟨l, ?_, hval, ?_⟩
  · have hgt : markedThreshold < scoreAt sa sb sc sd l := by
      rw [hval]
      exact hthr
    simp [extractAnswer, hpy, hgt]
  · intro l2 hl2
    have hlt := hfirst l2 hl2
    rw [← hM] at hlt
    exact ne_of_lt hlt

/-- C2 witness: with a and b tied at 60 (above threshold), the extractor
returns a, the canonically first tied label. -/
theorem C2_tie_break_first_label_witness :
    ∃ l, extractAnswer (intensityMap 60 60 0 0) = some l ∧
      scoreAt 60 60 0 0 l = 60 ∧
      ∀ l2, canonIdx l2 < canonIdx l → scoreAt 60 60 0 0 l2 ≠ 60 :=
  C2_tie_break_first_label 60 60 0 0 60 (by norm_num [max_def])
    ⟨Label.a, Label.b, by decide, rfl, rfl⟩ (by norm_num [markedThreshold])

/-- Dividing a length into `n` integer-truncated slices of size `s`: a
coordinate lies in some slice exactly when it is below `n * s`, so trailing
remainder coordinates lie in no slice. -/
lemma slice_cover (n s x : Nat) :
    (∃ i, i < n ∧ i * s ≤ x ∧ x < i * s + s) ↔ x < n * s := by
  constructor
  · rintro ⟨i, hi, _, h2⟩
    calc x < i * s + s := h2
    _ = (i + 1) * s := by ring
    _ ≤ n * s := Nat.mul_le_mul_right s hi
  · intro h
    have hs : 0 < s := by
      rcases Nat.eq_zero_or_pos s with h0 | h0
      · subst h0
        simp at h
      · exact h0
    refine ⟨x / s, (Nat.div_lt_iff_lt_mul hs).mpr h, Nat.div_mul_le_self x s, ?_⟩
    have hmod := Nat.mod_lt x hs
    have hdm := Nat.div_add_mod x s
    calc x = s * (x / s) + x % s := hdm.symm
    _ < s * (x / s) + s := Nat.add_lt_add_left hmod _
    _ = x / s * s + s := by ring

/-- C7 counterexample: at width 11 the last column ends at pixel 10, has the
same width 2 as every other column (it is not shorter and absorbs nothing),
and pixel column 10 belongs to no question cell — the remainder is excluded
from every cell, the opposite of what the claim asserts. -/
theorem C7_counterexample :
    ¬ lastColumnAbsorbsRemainder 11 ∧
    xEnd 11 (gridCols - 1) = 10 ∧
    xEnd 11 (gridCols - 1) - xStart 11 (gridCols - 1) = colWidth 11 ∧
    (∀ col, col < gridCols → ¬ (xStart 11 col ≤ 10 ∧ 10 < xEnd 11 col)) := by
  unfold lastColumnAbsorbsRemainder
  decide

/-- C7 amended: the grid mapper slices width, height and cell height by
integer-truncated division into slices that are ALL of equal size — the last
slice is never shorter and never absorbs the remainder; instead the up-to
`cols−1` / `rows−1` / `optionsPerQuestion−1` trailing remainder pixels in
each axis fall outside every slice. -/
theorem C7_grid_slicing (width height : Nat) :
    (∀ col, col < gridCols → xEnd width col - xStart width col = colWidth width) ∧
    (∀ x, (∃ col, col < gridCols ∧ xStart width col ≤ x ∧ x < xEnd width col) ↔
        x < gridCols * colWidth width) ∧
    width - gridCols * colWidth width < gridCols ∧
    (∀ row, row < gridRows → yEnd height row - yStart height row = rowHeight height) ∧
    (∀ y, (∃ row, row < gridRows ∧ yStart height row ≤ y ∧ y < yEnd height row) ↔
        y < gridRows * rowHeight height) ∧
    height - gridRows * rowHeight height < gridRows ∧
    (∀ row opt, opt < optionsPerQuestion →
        optYEnd height row opt - optYStart height row opt = optionHeight height) ∧
    (∀ dy, (∃ opt, opt < optionsPerQuestion ∧ opt * optionHeight height ≤ dy ∧
        dy < opt * optionHeight height + optionHeight height) ↔
        dy < optionsPerQuestion * optionHeight height) ∧
    rowHeight height - optionsPerQuestion * optionHeight height < optionsPerQuestion := by
  refine ⟨?_, ?_, ?_, ?_, ?_, ?_, ?_, ?_, ?_⟩
  · intro col _
    simp [xEnd]
  · intro x
    simpa only [xStart, xEnd] using slice_cover gridCols (colWidth width) x
  · simp only [colWidth, gridCols]
    omega
  · intro row _
    simp [yEnd]
  · intro y
    simpa only [yStart, yEnd] using slice_cover gridRows (rowHeight height) y
  · simp only [rowHeight, gridRows]
    omega
  · intro row opt _
    simp [optYEnd]
  · intro dy
    exact slice_cover optionsPerQuestion (optionHeight height) dy
  · simp only [optionHeight, rowHeight, optionsPerQuestion, gridRows]
    omega

/-- C7 amended witness at width 11, height 43: every column is 2 wide, pixel
column 10 is covered by no cell, the remainder 1 is below 5, and the band
facts hold. -/
theorem C7_grid_slicing_witness :
    xEnd 11 0 - xStart 11 0 = colWidth 11 ∧
    ¬ ((∃ col, col < gridCols ∧ xStart 11 col ≤ 10 ∧ 10 < xEnd 11 col)) ∧
    11 - gridCols * colWidth 11 < gridCols ∧
    optYEnd 43 3 2 - optYStart 43 3 2 = optionHeight 43 ∧
    rowHeight 43 - optionsPerQuestion * optionHeight 43 < optionsPerQuestion := by
  obtain ⟨h1, h2, h3, _, _, _, h7, _, h9⟩ := C7_grid_slicing 11 43
  refine ⟨h1 0 (by decide), ?_, h3, h7 3 2 (by decide), h9⟩
  intro hx
  have := (h2 10).mp hx
  revert this
  decide

/-- C9: on an option region whose samples are all binary (0 or 255), the ink
score `np.sum(region) / 255` equals exactly the number of foreground
(value-255) pixels of the region — a non-negative integer-valued quantity. -/
theorem C9_ink_score_counts_pixels (m : Mask) (col row opt : Nat)
    (hbin : ∀ y ∈ Finset.Ico (optYStart m.height row opt) (optYEnd m.height row opt),
        ∀ x ∈ Finset.Ico (xStart m.width col) (xEnd m.width col),
          m.pixel y x = 0 ∨ m.pixel y x = 255) :
    optionIntensity m col row opt =
      (((Finset.Ico (optYStart m.height row opt) (optYEnd m.height row opt) ×ˢ
          Finset.Ico (xStart m.width col) (xEnd m.width col)).filter
          (fun p => m.pixel p.1 p.2 = 255)).card : ℚ) ∧
    0 ≤ optionIntensity m col row opt := by
  have hsum : regionSum m (optYStart m.height row opt) (optYEnd m.height row opt)
      (xStart m.width col) (xEnd m.width col) =
      255 * ((Finset.Ico (optYStart m.height row opt) (optYEnd m.height row opt) ×ˢ
        Finset.Ico (xStart m.width col) (xEnd m.width col)).filter
        (fun p => m.pixel p.1 p.2 = 255)).card := by
    rw [regionSum, ← Finset.sum_product']
    have hcong : ∑ p ∈ (Finset.Ico (optYStart m.height row opt)
        (optYEnd m.height row opt) ×ˢ
        Finset.Ico (xStart m.width col) (xEnd m.width col)), m.pixel p.1 p.2 =
        ∑ p ∈ (Finset.Ico (optYStart m.height row opt)
          (optYEnd m.height row opt) ×ˢ
          Finset.Ico (xStart m.width col) (xEnd m.width col)),
          (if m.pixel p.1 p.2 = 255 then 255 else 0) := by
      refine Finset.sum_congr rfl ?_
      intro p hp
      rcases Finset.mem_product.mp hp with ⟨hy, hx⟩
      rcases hbin p.1 hy p.2 hx with h0 | h255
      · simp [h0]
      · simp [h255]
    rw [hcong, ← Finset.sum_filter, Finset.sum_const, smul_eq_mul, Nat.mul_comm]
  have hint : optionIntensity m col row opt =
      (((Finset.Ico (optYStart m.height row opt) (optYEnd m.height row opt) ×ˢ
        Finset.Ico (xStart m.width col) (xEnd m.width col)).filter
        (fun p => m.pixel p.1 p.2 = 255)).card : ℚ) := by
    rw [optionIntensity, hsum]
    push_cast
    exact mul_div_cancel_left₀ _ (by norm_num)
  refine ⟨hint, ?_⟩
  rw [hint]
  exact Nat.cast_nonneg _

/-- C9 witness: on the all-foreground 80×5 mask, the ink score of the first
option region equals its foreground pixel count. -/
theorem C9_ink_score_counts_pixels_witness :
    optionIntensity binaryMaskW 0 0 0 =
      (((Finset.Ico (optYStart binaryMaskW.height 0 0)
          (optYEnd binaryMaskW.height 0 0) ×ˢ
          Finset.Ico (xStart binaryMaskW.width 0) (xEnd binaryMaskW.width 0)).filter
          (fun p => binaryMaskW.pixel p.1 p.2 = 255)).card : ℚ) ∧
    0 ≤ optionIntensity binaryMaskW 0 0 0 :=
  C9_ink_score_counts_pixels binaryMaskW 0 0 0 (fun _ _ _ _ => Or.inr rfl)

end OMR
